import Mathlib

/-!
Verification development for the Tulsa coffee-trends pipeline
(`src/analyze.py`).  The pandas DataFrames of the source are modelled as
lists of records with explicitly nullable (`Option`) cells; float64
arithmetic is modelled exactly over `ℚ`.  `NaN` cells become `none`, and
pandas' skip-NA reductions, fill-NA operations and NaN-key join matching
(pandas merges treat NaN keys as equal) are translated accordingly.
-/

namespace Tulsa

/-- A loosely typed CSV cell, used for the review-text columns of the
source-B (Yelp) table, where `collect_review_text` checks both
`pd.notnull` and `isinstance(t, str)`. -/
inductive Cell
  | null
  | str (s : String)
  | num (q : ℚ)
deriving DecidableEq, Repr

/-- One raw source-A (Google) listing: row of `google_places_coffee.csv`
with the columns read by `canonical_merge`. -/
structure GRow where
  name : Option String := none
  lat : Option ℚ := none
  lng : Option ℚ := none
  address : Option String := none
  rating : Option ℚ := none
  user_ratings_total : Option ℚ := none
  place_id : Option String := none
deriving DecidableEq, Repr

/-- One raw source-B (Yelp) listing: row of `yelp_coffee.csv` with the
columns read by `canonical_merge`, `collect_review_text` and `rank_shops`. -/
structure YRow where
  name : Option String := none
  lat : Option ℚ := none
  lng : Option ℚ := none
  address : Option String := none
  rating : Option ℚ := none
  review_count : Option ℚ := none
  yelp_id : Option String := none
  url : Option String := none
  review1 : Cell := Cell.null
  review2 : Cell := Cell.null
  review3 : Cell := Cell.null
deriving DecidableEq, Repr

/-- The Yelp DataFrame as received by `canonical_merge`: its rows plus
whether the columns `name`, `lat`, `lng` are all present
(line 52 of `analyze.py` tests `{"name","lat","lng"}.issubset(y.columns)`). -/
structure YTable where
  hasKeyCols : Bool := true
  rows : List YRow := []
deriving DecidableEq, Repr

/-- One canonical (merged) shop record: the `keep` columns of
`canonical_merge`. -/
structure CanonRow where
  canonical_name : Option String := none
  canonical_lat : Option ℚ := none
  canonical_lng : Option ℚ := none
  address : Option String := none
  rating_google : Option ℚ := none
  user_ratings_total : Option ℚ := none
  rating_yelp : Option ℚ := none
  review_count : Option ℚ := none
  place_id : Option String := none
  yelp_id : Option String := none
  url : Option String := none
deriving DecidableEq, Repr

/-! ## Name/coordinate normalizer (`canonical_merge.prep`, lines 79-84) -/

/-- ASCII lower-casing, as `str.lower()` acts on the ASCII names in this
data set. -/
def pyLowerChar (c : Char) : Char :=
  if 65 ≤ c.toNat && c.toNat ≤ 90 then Char.ofNat (c.toNat + 32) else c

/-- Characters kept by the regex `[^a-z0-9]+` replacement (after
lower-casing): ASCII lower letters and digits. -/
def keepChar (c : Char) : Bool :=
  (97 ≤ c.toNat && c.toNat ≤ 122) || (48 ≤ c.toNat && c.toNat ≤ 57)

/-- Python's `str.strip()` whitespace set. -/
def pyIsSpace (c : Char) : Bool :=
  c = ' ' || c = '\t' || c = '\n' || c = '\r' || c.toNat = 11 || c.toNat = 12

/-- Python's `str.strip()`. -/
def pyStrip (s : String) : String :=
  String.mk (((s.data.dropWhile pyIsSpace).reverse.dropWhile pyIsSpace).reverse)

/-- Collapse runs of spaces to a single space (the regex replaces each
maximal run of non-alphanumeric characters with one space; mapping every
such character to a space first makes this a run-collapse). -/
def collapse : List Char → List Char
  | [] => []
  | [c] => [c]
  | c :: c' :: cs =>
    if c = ' ' && c' = ' ' then collapse (c' :: cs) else c :: collapse (c' :: cs)

/-- `df["name"].str.lower().str.replace(r"[^a-z0-9]+"," ", regex=True).str.strip()`
on one cell. -/
def normNameStr (s : String) : String :=
  pyStrip (String.mk (collapse ((s.data.map pyLowerChar).map
    (fun c => if keepChar c then c else ' '))))

/-- The `.str` accessor propagates NaN. -/
def normName : Option String → Option String := Option.map normNameStr

/-- Round half to even (numpy/pandas `round`), modelled exactly on `ℚ`:
with `f = ⌊q⌋` and fractional part `r = q - f = (q.num - f·q.den)/q.den`,
compare `r` against `1/2` by comparing `2·(q.num - f·q.den)` against
`q.den` (all in `ℤ`, which keeps the definition kernel-computable). -/
def roundHalfEven (q : ℚ) : ℤ :=
  let f := Int.fdiv q.num q.den
  let twiceFrac := 2 * (q.num - f * q.den)
  if twiceFrac < q.den then f
  else if (q.den : ℤ) < twiceFrac then f + 1
  else if f % 2 = 0 then f else f + 1

/-- `Series.round(3)` on one cell. -/
def round3 (q : ℚ) : ℚ := Rat.divInt (roundHalfEven (q * 1000)) 1000

/-- `.round(3)` propagates NaN. -/
def optRound3 : Option ℚ → Option ℚ := Option.map round3

/-- The derived join key `(norm_name, lat_r, lng_r)`; a `none` component
is a NaN key cell (pandas matches NaN keys with each other in merges). -/
abbrev MKey := Option String × Option ℚ × Option ℚ

def gKey (g : GRow) : MKey := (normName g.name, optRound3 g.lat, optRound3 g.lng)

def yKey (y : YRow) : MKey := (normName y.name, optRound3 y.lat, optRound3 y.lng)

/-! ## Canonical merger (`canonical_merge`, lines 50-111) -/

/-- The Google-only branch (lines 60-69): canonical fields copied from
the Google row, all Yelp-only fields set to `pd.NA`. -/
def gToCanon (g : GRow) : CanonRow :=
  { canonical_name := g.name
    canonical_lat := g.lat
    canonical_lng := g.lng
    address := g.address
    rating_google := g.rating
    user_ratings_total := g.user_ratings_total
    rating_yelp := none
    review_count := none
    place_id := g.place_id
    yelp_id := none
    url := none }

/-- `Series.fillna`: first non-null wins. -/
def fillna2 {α : Type} : Option α → Option α → Option α
  | some a, _ => some a
  | none, b => b

/-- One matched group of the outer join: the Google side, the Yelp side,
or both (a row of `merged` before column selection). -/
structure MPair where
  gSide : Option GRow
  ySide : Option YRow
deriving DecidableEq, Repr

/-- `pd.merge(g2, y2, on=["norm_name","lat_r","lng_r"], how="outer")`:
every Google row paired with each Yelp row of equal key (NaN key cells
match each other, as pandas does), plus the unmatched Yelp rows. -/
def outerPairs (gs : List GRow) (ys : List YRow) : List MPair :=
  (gs.flatMap fun g =>
    let ms := ys.filter fun y => yKey y = gKey g
    if ms.isEmpty then [⟨some g, none⟩] else ms.map fun y => ⟨some g, some y⟩)
  ++ ((ys.filter fun y => !(gs.any fun g => gKey g = yKey y)).map fun y => ⟨none, some y⟩)

/-- Lines 96-103: coalesce the suffixed columns into the canonical
columns (`fillna` with Google precedence) and keep the per-source fields
(lines 100-101 are identity when both sources carry a `rating` column). -/
def mergeRow (p : MPair) : CanonRow :=
  { canonical_name := fillna2 (p.gSide.bind (·.name)) (p.ySide.bind (·.name))
    canonical_lat := fillna2 (p.gSide.bind (·.lat)) (p.ySide.bind (·.lat))
    canonical_lng := fillna2 (p.gSide.bind (·.lng)) (p.ySide.bind (·.lng))
    address := fillna2 (p.gSide.bind (·.address)) (p.ySide.bind (·.address))
    rating_google := p.gSide.bind (·.rating)
    user_ratings_total := p.gSide.bind (·.user_ratings_total)
    rating_yelp := p.ySide.bind (·.rating)
    review_count := p.ySide.bind (·.review_count)
    place_id := p.gSide.bind (·.place_id)
    yelp_id := p.ySide.bind (·.yelp_id)
    url := p.ySide.bind (·.url) }

/-- The dedup key of lines 76 and 111. -/
def triple (r : CanonRow) : Option String × Option ℚ × Option ℚ :=
  (r.canonical_name, r.canonical_lat, r.canonical_lng)

/-- `drop_duplicates(subset=[...])` keeps the first row of each key
(pandas treats NaN keys as equal here as well, which `Option` equality
reproduces). -/
def dedupByTriple : List CanonRow → List (Option String × Option ℚ × Option ℚ) → List CanonRow
  | [], _ => []
  | r :: rs, seen =>
    if triple r ∈ seen then dedupByTriple rs seen
    else r :: dedupByTriple rs (triple r :: seen)

def dropDupTriple (l : List CanonRow) : List CanonRow := dedupByTriple l []

/-- `canonical_merge(g, y)` (lines 50-111).  The guard of line 52
(`y is None or y.empty or not {"name","lat","lng"}.issubset(y.columns)`)
selects the Google-only fallback branch. -/
def canonical_merge (g : List GRow) (y : YTable) : List CanonRow :=
  if y.rows.isEmpty || !y.hasKeyCols then
    dropDupTriple (g.map gToCanon)
  else
    dropDupTriple ((outerPairs g y.rows).map mergeRow)

/-! ## Review text aggregator (`collect_review_text`, lines 113-128) -/

/-- One row of the review bundle DataFrame. -/
structure Bundle where
  yelp_id : Option String
  review_text : String
deriving DecidableEq, Repr

/-- The per-cell test of line 123:
`pd.notnull(t) and isinstance(t, str) and t.strip()`, keeping the
stripped text (line 124 appends `t.strip()`). -/
def usableText : Cell → Option String
  | Cell.str s => if pyStrip s = "" then none else some (pyStrip s)
  | _ => none

/-- The kept texts of one listing, scanned in fixed column order. -/
def keptTexts (r : YRow) : List String :=
  [r.review1, r.review2, r.review3].filterMap usableText

/-- The row built for one listing (lines 119-126): `None` when no review
field is usable, else `{"yelp_id": ..., "review_text": " ".join(texts)}`. -/
def bundleRow (r : YRow) : Option Bundle :=
  if (keptTexts r).isEmpty then none
  else some { yelp_id := r.yelp_id, review_text := String.intercalate " " (keptTexts r) }

/-- `collect_review_text(y)`: one row per listing with at least one kept
text, then `pd.DataFrame(rows).dropna()` which drops every row whose
`yelp_id` is null. -/
def collect_review_text (y : List YRow) : List Bundle :=
  if y.isEmpty then []
  else (y.filterMap bundleRow).filter fun b => b.yelp_id.isSome

/-- The Review Text Aggregator as the (amended) spec words it: a bundle
is emitted for a listing iff some review-text field is non-null text
that is non-blank after trimming *and* the listing's `yelp_id` is
non-null; the bundle joins the kept (trimmed) texts with single spaces
in fixed field order. -/
def bundleRowSpec (r : YRow) : Option Bundle :=
  if !(keptTexts r).isEmpty && r.yelp_id.isSome then
    some { yelp_id := r.yelp_id, review_text := String.intercalate " " (keptTexts r) }
  else none

def bundlesSpec (y : List YRow) : List Bundle := y.filterMap bundleRowSpec

/-! ## Dedup lemmas -/

theorem dedupByTriple_not_mem_seen {l : List CanonRow}
    {seen : List (Option String × Option ℚ × Option ℚ)} :
    ∀ r ∈ dedupByTriple l seen, triple r ∉ seen := by
  induction l generalizing seen with
  | nil => intro r hr; simp [dedupByTriple] at hr
  | cons a l ih =>
    intro r hr
    by_cases h : triple a ∈ seen
    · rw [dedupByTriple, if_pos h] at hr
      exact ih r hr
    · rw [dedupByTriple, if_neg h, List.mem_cons] at hr
      rcases hr with rfl | hr
      · exact h
      · have := ih r hr
        intro hmem
        exact this (List.mem_cons_of_mem _ hmem)

theorem dedupByTriple_pairwise (l : List CanonRow)
    (seen : List (Option String × Option ℚ × Option ℚ)) :
    (dedupByTriple l seen).Pairwise (fun a b => triple a ≠ triple b) := by
  induction l generalizing seen with
  | nil => simp [dedupByTriple]
  | cons a l ih =>
    by_cases h : triple a ∈ seen
    · rw [dedupByTriple, if_pos h]; exact ih seen
    · rw [dedupByTriple, if_neg h]
      refine List.Pairwise.cons ?_ (ih _)
      intro b hb hab
      have := dedupByTriple_not_mem_seen b hb
      exact this (by simp [hab])

theorem dedupByTriple_subset {l : List CanonRow}
    {seen : List (Option String × Option ℚ × Option ℚ)} :
    ∀ r ∈ dedupByTriple l seen, r ∈ l := by
  induction l generalizing seen with
  | nil => intro r hr; simp [dedupByTriple] at hr
  | cons a l ih =>
    intro r hr
    by_cases h : triple a ∈ seen
    · rw [dedupByTriple, if_pos h] at hr
      exact List.mem_cons_of_mem _ (ih r hr)
    · rw [dedupByTriple, if_neg h, List.mem_cons] at hr
      rcases hr with rfl | hr
      · exact List.mem_cons_self _ _
      · exact List.mem_cons_of_mem _ (ih r hr)

theorem dedupByTriple_covers {l : List CanonRow}
    {seen : List (Option String × Option ℚ × Option ℚ)} :
    ∀ a ∈ l, triple a ∉ seen → ∃ r ∈ dedupByTriple l seen, triple r = triple a := by
  induction l generalizing seen with
  | nil => intro a ha; simp at ha
  | cons b l ih =>
    intro a ha hseen
    rw [List.mem_cons] at ha
    by_cases h : triple b ∈ seen
    · rw [dedupByTriple, if_pos h]
      rcases ha with rfl | ha
      · exact absurd h hseen
      · exact ih a ha hseen
    · rw [dedupByTriple, if_neg h]
      rcases ha with rfl | ha
      · exact ⟨a, List.mem_cons_self _ _, rfl⟩
      · by_cases htr : triple a = triple b
        · exact ⟨b, List.mem_cons_self _ _, htr.symm⟩
        · have hnot : triple a ∉ triple b :: seen := by
            intro hm
            rcases List.mem_cons.mp hm with he | hm2
            · exact htr he
            · exact hseen hm2
          obtain ⟨r, hr, hre⟩ := ih a ha hnot
          exact ⟨r, List.mem_cons_of_mem _ hr, hre⟩

/-! ## Claims about the Canonical Merger and the Review Text Aggregator -/

/-- C4: For every pair of raw input sets, no two rows of the Canonical
Merger's output share the same `(canonical_name, canonical_lat,
canonical_lng)` triple. -/
theorem C4_dedup_invariant (g : List GRow) (y : YTable) :
    (canonical_merge g y).Pairwise fun a b => triple a ≠ triple b := by
  unfold canonical_merge dropDupTriple
  split
  · exact dedupByTriple_pairwise _ _
  · exact dedupByTriple_pairwise _ _

/-- C3: If source B is empty or lacks the `name`/`lat`/`lng` columns,
the Canonical Merger's output is exactly source A's listings mapped
one-to-one through `gToCanon` (modulo deduplication on the canonical
triple: every A listing's triple is still represented), and every
B-only field (`rating_yelp`, `review_count`, `yelp_id`, `url`) is null. -/
theorem C3_fallback_correct (g : List GRow) (y : YTable)
    (hB : y.rows = [] ∨ y.hasKeyCols = false) :
    canonical_merge g y = dropDupTriple (g.map gToCanon)
    ∧ (∀ r ∈ canonical_merge g y,
        r.rating_yelp = none ∧ r.review_count = none ∧ r.yelp_id = none ∧ r.url = none)
    ∧ ∀ a ∈ g, ∃ r ∈ canonical_merge g y, triple r = triple (gToCanon a) := by
  have hbranch : canonical_merge g y = dropDupTriple (g.map gToCanon) := by
    unfold canonical_merge
    rcases hB with h | h
    · simp [h]
    · simp [h]
  refine ⟨hbranch, ?_, ?_⟩
  · intro r hr
    rw [hbranch] at hr
    have hmem : r ∈ g.map gToCanon := dedupByTriple_subset r hr
    obtain ⟨a, _, rfl⟩ := List.mem_map.mp hmem
    simp [gToCanon]
  · intro a ha
    rw [hbranch]
    exact dedupByTriple_covers (gToCanon a) (List.mem_map_of_mem _ ha) (by simp)

/-- A concrete Google listing (the spec's Blue Dome scenario). -/
def gBlueDome : GRow :=
  { name := some "Blue Dome Coffee", lat := some (36154/1000), lng := some (-(95990/1000)),
    rating := some (9/2), user_ratings_total := some 120 }

/-- A Yelp table that is present but has no rows. -/
def yEmptyTable : YTable := { hasKeyCols := true, rows := [] }

/-- Closed witness for `C3_fallback_correct` at a concrete input. -/
theorem C3_fallback_correct_witness :
    canonical_merge [gBlueDome] yEmptyTable = dropDupTriple ([gBlueDome].map gToCanon)
    ∧ (∀ r ∈ canonical_merge [gBlueDome] yEmptyTable,
        r.rating_yelp = none ∧ r.review_count = none ∧ r.yelp_id = none ∧ r.url = none)
    ∧ ∀ a ∈ [gBlueDome], ∃ r ∈ canonical_merge [gBlueDome] yEmptyTable,
        triple r = triple (gToCanon a) :=
  C3_fallback_correct [gBlueDome] yEmptyTable (Or.inl rfl)

theorem filter_filterMap_bundle (l : List YRow) :
    ((l.filterMap bundleRow).filter fun b => b.yelp_id.isSome) = bundlesSpec l := by
  induction l with
  | nil => rfl
  | cons r rest ih =>
    by_cases hk : (keptTexts r).isEmpty
    · have h1 : bundleRow r = none := by simp [bundleRow, hk]
      have h2 : bundleRowSpec r = none := by simp [bundleRowSpec, hk]
      rw [bundlesSpec, List.filterMap_cons_none h1, List.filterMap_cons_none h2]
      exact ih
    · by_cases hid : r.yelp_id.isSome
      · have h1 : bundleRow r = some
            { yelp_id := r.yelp_id, review_text := String.intercalate " " (keptTexts r) } := by
          simp [bundleRow, hk]
        have h2 : bundleRowSpec r = some
            { yelp_id := r.yelp_id, review_text := String.intercalate " " (keptTexts r) } := by
          simp [bundleRowSpec, hk, hid]
        rw [bundlesSpec, List.filterMap_cons_some h1, List.filterMap_cons_some h2,
          List.filter_cons_of_pos (by simpa using hid)]
        exact congrArg _ ih
      · have h1 : bundleRow r = some
            { yelp_id := r.yelp_id, review_text := String.intercalate " " (keptTexts r) } := by
          simp [bundleRow, hk]
        have h2 : bundleRowSpec r = none := by
          simp [bundleRowSpec, hid]
        rw [bundlesSpec, List.filterMap_cons_some h1, List.filterMap_cons_none h2,
          List.filter_cons_of_neg (by simpa using hid)]
        exact ih

/-- C5 (refinement, amended): the Review Text Aggregator equals the
spec-worded aggregator `bundlesSpec`, which emits a bundle for a listing
iff some review-text field is non-null non-blank text *and* the
listing's `yelp_id` is non-null (the `dropna()` of line 127 drops
bundles with null ids, which the original claim omits). -/
theorem C5_review_join_amended (y : List YRow) :
    collect_review_text y = bundlesSpec y := by
  cases y with
  | nil => rfl
  | cons r rest =>
    have : collect_review_text (r :: rest)
        = (((r :: rest).filterMap bundleRow).filter fun b => b.yelp_id.isSome) := rfl
    rw [this, filter_filterMap_bundle]

/-- A Yelp listing with usable review text but a null `yelp_id`. -/
def yNoId : YRow := { yelp_id := none, review1 := Cell.str "great" }

/-- C5 counterexample: a listing with non-blank review text but a null
`yelp_id` produces no bundle, so "a ReviewBundle is produced iff at
least one review-text field is non-blank after trimming" fails. -/
theorem C5_cex :
    collect_review_text [yNoId] = [] ∧ keptTexts yNoId ≠ [] := by
  constructor
  · rfl
  · decide

/-- C8 (amended): a listing with an absent name is *not* excluded from
matching: its normalized-name key is null, and null keys match each
other in the merge (pandas semantics), so a Google row and a Yelp row
both missing `name` but with equal rounded coordinates are merged into
a single canonical row carrying both sources' ratings.  (No unkeyable
count is reported anywhere: `canonical_merge` returns only the table.) -/
theorem C8_amended (g0 : GRow) (y0 : YRow) (y : YTable)
    (hcols : y.hasKeyCols = true) (hrows : y.rows = [y0])
    (hgn : g0.name = none) (hyn : y0.name = none)
    (hlat : optRound3 g0.lat = optRound3 y0.lat)
    (hlng : optRound3 g0.lng = optRound3 y0.lng) :
    (canonical_merge [g0] y).map (fun r => (r.rating_google, r.rating_yelp))
      = [(g0.rating, y0.rating)] := by
  obtain ⟨hk, rows⟩ := y
  simp only at hcols hrows
  subst hcols hrows
  have hkey : yKey y0 = gKey g0 := by
    simp [gKey, yKey, normName, hgn, hyn, hlat, hlng]
  simp [canonical_merge, outerPairs, hkey, mergeRow, dropDupTriple, dedupByTriple]

/-- A name-less Google listing. -/
def gNoName : GRow := { name := none, lat := some 36, lng := some (-95), rating := some 4 }

/-- A name-less Yelp listing at the same coordinates. -/
def yNoName : YRow := { name := none, lat := some 36, lng := some (-95), rating := some 5 }

/-- Closed witness for `C8_amended` at a concrete input. -/
theorem C8_amended_witness :
    (canonical_merge [gNoName] { hasKeyCols := true, rows := [yNoName] }).map
      (fun r => (r.rating_google, r.rating_yelp)) = [(some 4, some 5)] :=
  C8_amended gNoName yNoName _ rfl rfl rfl rfl (by with_unfolding_all decide)
    (by with_unfolding_all decide)

/-- C8 counterexample: with a name-less listing on each side (same
rounded coordinates), the merger outputs ONE row carrying both ratings:
the unkeyable listings were matched to each other, not excluded from
matching as the claim states (and no count of unkeyable records is
computed anywhere in `canonical_merge`). -/
theorem C8_cex :
    (canonical_merge [gNoName] { hasKeyCols := true, rows := [yNoName] }).map
      (fun r => (r.rating_google, r.rating_yelp)) = [(some 4, some 5)]
    ∧ (canonical_merge [gNoName] { hasKeyCols := true, rows := [yNoName] }).length = 1 := by
  constructor
  · with_unfolding_all decide
  · with_unfolding_all decide

/-! ## Ranking engine (`rank_shops`, lines 141-180)

`rank_shops(canon, yelp_scores, y_raw)` left-merges `y_raw[["yelp_id","name"]]`
and `yelp_scores[["yelp_id","compound"]]` into the canonical table, derives
`stars`/`volume`/`sentiment`, normalizes each column into the composite
`score`, and sorts descending by `score` with pandas
`sort_values("score", ascending=False)` (numpy `quicksort` kernel). -/

/-- One row of the scored-reviews DataFrame restricted to the columns
`rank_shops` reads (`yelp_id`, `compound`). -/
structure ScoreRow where
  yelp_id : Option String := none
  compound : Option ℚ := none
deriving DecidableEq, Repr

/-- One row of the working table `base` of `rank_shops` (canonical
columns, the `name` column pulled in from raw source B, the joined
`compound`, and the derived columns). -/
structure BaseRow where
  canonical_name : Option String := none
  canonical_lat : Option ℚ := none
  canonical_lng : Option ℚ := none
  address : Option String := none
  rating_google : Option ℚ := none
  user_ratings_total : Option ℚ := none
  rating_yelp : Option ℚ := none
  review_count : Option ℚ := none
  place_id : Option String := none
  yelp_id : Option String := none
  url : Option String := none
  name_b : Option String := none
  compound : Option ℚ := none
  stars : Option ℚ := none
  volume : Option ℚ := none
  sentiment : Option ℚ := none
  score : Option ℚ := none
deriving DecidableEq, Repr

def canonToBase (r : CanonRow) : BaseRow :=
  { canonical_name := r.canonical_name
    canonical_lat := r.canonical_lat
    canonical_lng := r.canonical_lng
    address := r.address
    rating_google := r.rating_google
    user_ratings_total := r.user_ratings_total
    rating_yelp := r.rating_yelp
    review_count := r.review_count
    place_id := r.place_id
    yelp_id := r.yelp_id
    url := r.url }

/-- Line 151-154: `canon.merge(y_raw[["yelp_id","name"]], on="yelp_id",
how="left")` when `y_raw` is non-empty (its `yelp_id` column is present
in the fixed schema); pandas left merges match null keys with each
other, and a key with several matches duplicates the left row. -/
def joinYName (canon : List CanonRow) (yRaw : List YRow) : List BaseRow :=
  if yRaw.isEmpty then canon.map canonToBase
  else canon.flatMap fun r =>
    if (yRaw.filter fun yr => yr.yelp_id = r.yelp_id).isEmpty then [canonToBase r]
    else (yRaw.filter fun yr => yr.yelp_id = r.yelp_id).map
      fun yr => { canonToBase r with name_b := yr.name }

/-- Lines 157-160: merge `yelp_scores[["yelp_id","compound"]]` the same
way when the scored table is non-empty; otherwise the `compound` column
is created as all-NaN. -/
def joinCompound (base : List BaseRow) (ys : List ScoreRow) : List BaseRow :=
  if ys.isEmpty then base
  else base.flatMap fun r =>
    if (ys.filter fun s => s.yelp_id = r.yelp_id).isEmpty then [r]
    else (ys.filter fun s => s.yelp_id = r.yelp_id).map
      fun s => { r with compound := s.compound }

/-- `df[["a","b"]].mean(axis=1, skipna=True)` on one row: the mean of
the non-null values, NaN when both are null. -/
def rowMean2 : Option ℚ → Option ℚ → Option ℚ
  | some x, some y => some ((x + y) / 2)
  | some x, none => some x
  | none, some y => some y
  | none, none => none

/-- `df[["a","b"]].max(axis=1, skipna=True)` on one row. -/
def rowMax2 : Option ℚ → Option ℚ → Option ℚ
  | some x, some y => some (max x y)
  | some x, none => some x
  | none, some y => some y
  | none, none => none

/-- Lines 169-171: the derived metric columns.  (Line 163-166's
`pd.to_numeric(..., errors="coerce")` is the identity here because the
model's cells are already numeric-or-null.) -/
def addMetrics (rows : List BaseRow) : List BaseRow :=
  rows.map fun r =>
    { r with
      stars := rowMean2 r.rating_google r.rating_yelp
      volume := rowMax2 r.user_ratings_total r.review_count
      sentiment := r.compound }

/-- The working table of `rank_shops` just before normalization. -/
def rankBase (canon : List CanonRow) (ys : List ScoreRow) (yRaw : List YRow) : List BaseRow :=
  addMetrics (joinCompound (joinYName canon yRaw) ys)

/-- The `1e-9` of line 176 (exact-rational model of the float literal's
role as a small positive epsilon). -/
def eps : ℚ := 1 / 1000000000

/-- `c.notna().sum()`: the number of non-null entries of a column. -/
def nnCount (xs : List (Option ℚ)) : Nat := (xs.filterMap id).length

/-- `c.min()` (skipna): minimum of the non-null entries, 0 on an
all-null column (never used in that case by `norm`). -/
def colMin (xs : List (Option ℚ)) : ℚ :=
  match xs.filterMap id with
  | [] => 0
  | v :: vs => vs.foldl min v

/-- `c.max()` (skipna). -/
def colMax (xs : List (Option ℚ)) : ℚ :=
  match xs.filterMap id with
  | [] => 0
  | v :: vs => vs.foldl max v

/-- Lines 174-176, the inner `norm`:
`(c - c.min()) / (c.max() - c.min() + 1e-9) if c.notna().sum() > 1 else
c.fillna(0.5)`.  In the scaling branch NaN entries stay NaN (NaN
propagates through `-` and `/`); in the fillna branch only the null
entries become 0.5. -/
def norm (xs : List (Option ℚ)) : List (Option ℚ) :=
  if 1 < nnCount xs then
    xs.map (Option.map fun v => (v - colMin xs) / (colMax xs - colMin xs + eps))
  else
    xs.map fun x => some (x.getD (1/2))

/-- Line 178: `0.6 * ns + 0.3 * nv + 0.1 * nc` elementwise, with NaN
propagation. -/
def combineScore : Option ℚ → Option ℚ → Option ℚ → Option ℚ
  | some a, some b, some c => some (6/10 * a + 3/10 * b + 1/10 * c)
  | _, _, _ => none

/-- Line 178: attach the `score` column (the un-normalized `stars`,
`volume`, `sentiment` columns are kept as they are). -/
def scoreRows (rows : List BaseRow) : List BaseRow :=
  let ns := norm (rows.map (·.stars))
  let nv := norm (rows.map (·.volume))
  let nc := norm (rows.map (·.sentiment))
  (rows.zip (ns.zip (nv.zip nc))).map fun p =>
    { p.1 with score := combineScore p.2.1 p.2.2.1 p.2.2.2 }

/-! ### `sort_values("score", ascending=False)`

pandas `nargsort` splits off the NaN positions, reverses the non-NaN
values and their indices for a descending sort, argsorts with the
`kind="quicksort"` kernel (numpy's introsort: median-of-3 quicksort,
switching to insertion sort on segments of at most 16 elements and to
heapsort past the depth limit `2*msb(n)`), reverses the result, and
appends the NaN positions at the end (`na_position="last"`).  The
kernel is modelled on the list of original row indices, compared through
their score values, which is isomorphic to numpy's positions-into-the-
reversed-array formulation. -/

/-- Stable insert of numpy's insertion sort: `x` goes after the equal
keys, before the first strictly greater key. -/
def npInsert (v : Nat → ℚ) (x : Nat) : List Nat → List Nat
  | [] => [x]
  | y :: ys => if v x < v y then x :: y :: ys else y :: npInsert v x ys

/-- numpy's insertion sort of a segment (left to right, inserting each
element into the sorted prefix). -/
def npInsArgsort (v : Nat → ℚ) (l : List Nat) : List Nat :=
  l.foldl (fun acc x => npInsert v x acc) []

/-- `INTP_SWAP` on a list of indices. -/
def swapL (l : List Nat) (i j : Nat) : List Nat :=
  (l.set i (l.getD j 0)).set j (l.getD i 0)

/-- `do ++pi; while (v[*pi] < vp)` starting at a given position. -/
def scanUp (v : Nat → ℚ) (l : List Nat) (vp : ℚ) : Nat → Nat → Nat
  | 0, i => i
  | fuel + 1, i => if v (l.getD i 0) < vp then scanUp v l vp fuel (i + 1) else i

/-- `do --pj; while (vp < v[*pj])` starting at a given position. -/
def scanDown (v : Nat → ℚ) (l : List Nat) (vp : ℚ) : Nat → Nat → Nat
  | 0, j => j
  | fuel + 1, j => if vp < v (l.getD j 0) then scanDown v l vp fuel (j - 1) else j

/-- The partition loop of numpy's `aquicksort`. -/
def partLoop (v : Nat → ℚ) (vp : ℚ) : Nat → List Nat → Nat → Nat → List Nat × Nat
  | 0, l, pi, _ => (l, pi)
  | fuel + 1, l, pi, pj =>
    let pi' := scanUp v l vp (l.length + 1) (pi + 1)
    let pj' := scanDown v l vp (l.length + 1) (pj - 1)
    if pj' ≤ pi' then (l, pi')
    else partLoop v vp fuel (swapL l pi' pj') pi' pj'

/-- One partition step of numpy's `aquicksort` on the (absolute)
segment `[pl, pr]`: median-of-3 pivot selection, pivot parked at
`pr-1`, two-pointer partition, pivot swapped into its final place;
returns the new index list and the pivot position. -/
def partitionAt (v : Nat → ℚ) (l : List Nat) (pl pr : Nat) : List Nat × Nat :=
  let pm := pl + (pr - pl) / 2
  let l1 := if v (l.getD pm 0) < v (l.getD pl 0) then swapL l pm pl else l
  let l2 := if v (l1.getD pr 0) < v (l1.getD pm 0) then swapL l1 pr pm else l1
  let l3 := if v (l2.getD pm 0) < v (l2.getD pl 0) then swapL l2 pm pl else l2
  let vp := v (l3.getD pm 0)
  let l4 := swapL l3 pm (pr - 1)
  let p := partLoop v vp (l4.length + 1) l4 pl (pr - 1)
  (swapL p.1 p.2 (pr - 1), p.2)

/-- 1-indexed read used by numpy's `aheapsort` (`a = tosort - 1`). -/
def getH (a : List Nat) (k : Nat) : Nat := a.getD (k - 1) 0

/-- 1-indexed write used by numpy's `aheapsort`. -/
def setH (a : List Nat) (k : Nat) (x : Nat) : List Nat := a.set (k - 1) x

/-- The sift-down loop shared by both phases of `aheapsort`; returns the
updated list and the final hole position `i`. -/
def heapSiftLoop (v : Nat → ℚ) : Nat → List Nat → Nat → Nat → Nat → Nat → List Nat × Nat
  | 0, a, _, i, _, _ => (a, i)
  | fuel + 1, a, tmp, i, j, n =>
    if j ≤ n then
      let j2 := if j < n && decide (v (getH a j) < v (getH a (j + 1))) then j + 1 else j
      if v tmp < v (getH a j2) then
        heapSiftLoop v fuel (setH a i (getH a j2)) tmp j2 (2 * j2) n
      else (a, i)
    else (a, i)

/-- Heap construction phase of `aheapsort` (`for l = n>>1; l > 0; --l`). -/
def heapBuild (v : Nat → ℚ) : Nat → List Nat → Nat → Nat → List Nat
  | 0, a, _, _ => a
  | fuel + 1, a, l, n =>
    if 0 < l then
      let tmp := getH a l
      let p := heapSiftLoop v (n + 2) a tmp l (2 * l) n
      heapBuild v fuel (setH p.1 p.2 tmp) (l - 1) n
    else a

/-- Extraction phase of `aheapsort` (`for (; n > 1;)`). -/
def heapExtract (v : Nat → ℚ) : Nat → List Nat → Nat → List Nat
  | 0, a, _ => a
  | fuel + 1, a, n =>
    if 1 < n then
      let tmp := getH a n
      let a2 := setH a n (getH a 1)
      let p := heapSiftLoop v (n + 2) a2 tmp 1 2 (n - 1)
      heapExtract v fuel (setH p.1 p.2 tmp) (n - 1)
    else a

/-- numpy's `aheapsort` on one segment (indices compared through `v`). -/
def heapsortSeg (v : Nat → ℚ) (s : List Nat) : List Nat :=
  heapExtract v s.length (heapBuild v (s.length + 1) s (s.length / 2) s.length) s.length

/-- Apply a segment sorter to the positions `[pl, pr]` of the index
list, leaving the rest in place. -/
def applySeg (f : List Nat → List Nat) (l : List Nat) (pl pr : Nat) : List Nat :=
  let seg := (l.drop pl).take (pr + 1 - pl)
  l.take pl ++ f seg ++ l.drop (pl + seg.length)

/-- The outer loop of numpy's `aquicksort`: partition while the current
segment is longer than `SMALL_QUICKSORT = 15` positions (length > 16),
pushing the larger side on the explicit stack; switch to `aheapsort`
when the shared depth budget is exhausted; insertion-sort small
segments; pop the stack when a segment is finished. -/
def qsLoop (v : Nat → ℚ) : Nat → List Nat → Nat → Nat → Int → List (Nat × Nat) → List Nat
  | 0, l, _, _, _, _ => l
  | fuel + 1, l, pl, pr, depth, stack =>
    if 15 < pr - pl then
      if depth < 0 then
        let l2 := applySeg (heapsortSeg v) l pl pr
        match stack with
        | [] => l2
        | (a, b) :: rest => qsLoop v fuel l2 a b depth rest
      else
        let p := partitionAt v l pl pr
        if p.2 - pl < pr - p.2 then
          qsLoop v fuel p.1 pl (p.2 - 1) (depth - 1) ((p.2 + 1, pr) :: stack)
        else
          qsLoop v fuel p.1 (p.2 + 1) pr (depth - 1) ((pl, p.2 - 1) :: stack)
    else
      let l2 := applySeg (npInsArgsort v) l pl pr
      match stack with
      | [] => l2
      | (a, b) :: rest => qsLoop v fuel l2 a b depth rest

/-- numpy `argsort(kind="quicksort")` of an index list compared through
`v` (depth budget `npy_get_msb(num) * 2`). -/
def npArgsortKernel (v : Nat → ℚ) (l : List Nat) : List Nat :=
  qsLoop v (l.length * l.length + 17) l 0 (l.length - 1) (2 * (Nat.log2 l.length : Int)) []

/-- The comparison key the sort reads at original row position `i` (the
`getD 0` branch is never consulted: NaN rows are masked out before the
kernel runs). -/
def scoreVal (scores : List (Option ℚ)) (i : Nat) : ℚ := (scores.getD i none).getD 0

/-- The NaN mask of `nargsort` (`isna(items)`, negated). -/
def scoreSome (scores : List (Option ℚ)) (i : Nat) : Bool := (scores.getD i none).isSome

/-- pandas `nargsort(scores, kind="quicksort", ascending=False,
na_position="last")`: non-NaN indices reversed, argsorted by value,
reversed again, NaN indices appended. -/
def nargsortDesc (scores : List (Option ℚ)) : List Nat :=
  (npArgsortKernel (scoreVal scores)
      (((List.range scores.length).filter (scoreSome scores)).reverse)).reverse
  ++ (List.range scores.length).filter fun i => !scoreSome scores i

/-- Line 179: `base.sort_values("score", ascending=False).reset_index(drop=True)`. -/
def sortDescByScore (rows : List BaseRow) : List BaseRow :=
  (nargsortDesc (rows.map (·.score))).map fun i => rows.getD i {}

/-- `rank_shops(canon, yelp_scores, y_raw)` (lines 141-180); an empty
canonical table short-circuits to an empty result (line 143-148). -/
def rank_shops (canon : List CanonRow) (ys : List ScoreRow) (yRaw : List YRow) : List BaseRow :=
  if canon.isEmpty then []
  else sortDescByScore (scoreRows (rankBase canon ys yRaw))

/-! ## Normalization lemmas and claims C1 / C10 -/

theorem norm_getD (xs : List (Option ℚ)) (i : Nat) (hi : i < xs.length) :
    (norm xs).getD i none =
      if 1 < nnCount xs then
        (xs.getD i none).map fun v => (v - colMin xs) / (colMax xs - colMin xs + eps)
      else some ((xs.getD i none).getD (1/2)) := by
  rw [norm]
  split
  · rw [List.getD_eq_getElem?_getD, List.getElem?_map, List.getElem?_eq_getElem hi,
      List.getD_eq_getElem?_getD, List.getElem?_eq_getElem hi]
    rfl
  · rw [List.getD_eq_getElem?_getD, List.getElem?_map, List.getElem?_eq_getElem hi,
      List.getD_eq_getElem?_getD, List.getElem?_eq_getElem hi]
    rfl

theorem foldl_min_le (vs : List ℚ) (v : ℚ) :
    vs.foldl min v ≤ v ∧ ∀ a ∈ vs, vs.foldl min v ≤ a := by
  induction vs generalizing v with
  | nil => exact ⟨le_refl v, by simp⟩
  | cons u vs ih =>
    have h := ih (min v u)
    refine ⟨le_trans h.1 (min_le_left v u), ?_⟩
    intro a ha
    rw [List.mem_cons] at ha
    rcases ha with rfl | ha
    · exact le_trans h.1 (min_le_right v a)
    · exact h.2 a ha

theorem le_foldl_max (vs : List ℚ) (v : ℚ) :
    v ≤ vs.foldl max v ∧ ∀ a ∈ vs, a ≤ vs.foldl max v := by
  induction vs generalizing v with
  | nil => exact ⟨le_refl v, by simp⟩
  | cons u vs ih =>
    have h := ih (max v u)
    refine ⟨le_trans (le_max_left v u) h.1, ?_⟩
    intro a ha
    rw [List.mem_cons] at ha
    rcases ha with rfl | ha
    · exact le_trans (le_max_right v a) h.1
    · exact h.2 a ha

theorem colMin_le_of_mem {xs : List (Option ℚ)} {a : ℚ} (ha : a ∈ xs.filterMap id) :
    colMin xs ≤ a := by
  rw [colMin]
  rcases hl : xs.filterMap id with _ | ⟨v, vs⟩
  · rw [hl] at ha; simp at ha
  · rw [hl, List.mem_cons] at ha
    rcases ha with rfl | ha
    · exact (foldl_min_le vs a).1
    · exact (foldl_min_le vs v).2 a ha

theorem le_colMax_of_mem {xs : List (Option ℚ)} {a : ℚ} (ha : a ∈ xs.filterMap id) :
    a ≤ colMax xs := by
  rw [colMax]
  rcases hl : xs.filterMap id with _ | ⟨v, vs⟩
  · rw [hl] at ha; simp at ha
  · rw [hl, List.mem_cons] at ha
    rcases ha with rfl | ha
    · exact (le_foldl_max vs a).1
    · exact (le_foldl_max vs v).2 a ha

theorem eps_pos : (0 : ℚ) < eps := by norm_num [eps]

/-- Every value produced by the scaling branch of `norm` lies in `[0, 1)`. -/
theorem norm_mem_bounds {xs : List (Option ℚ)} (h1 : 1 < nnCount xs) :
    ∀ o ∈ norm xs, ∀ q : ℚ, o = some q → 0 ≤ q ∧ q < 1 := by
  rw [norm, if_pos h1]
  intro o ho q hq
  obtain ⟨x, hx, rfl⟩ := List.mem_map.mp ho
  cases x with
  | none => simp at hq
  | some v =>
    simp only [Option.map_some', Option.some.injEq] at hq
    subst hq
    have hv : v ∈ xs.filterMap id := List.mem_filterMap.mpr ⟨some v, hx, rfl⟩
    have hmin := colMin_le_of_mem hv
    have hmax := le_colMax_of_mem hv
    have hd : 0 < colMax xs - colMin xs + eps := by
      have h0 := eps_pos
      linarith
    constructor
    · apply div_nonneg <;> linarith
    · rw [div_lt_one hd]
      have h0 := eps_pos
      linarith

/-- Pointwise description of the actual behavior of `norm`
(lines 174-176): with more than one non-null value, null entries stay
null and non-null entries are min-max scaled; with at most one non-null
value, null entries become `0.5` while a non-null entry keeps its
original value. -/
def normSpecAt (xs : List (Option ℚ)) (i : Nat) : Prop :=
  (1 < nnCount xs →
    (xs.getD i none = none → (norm xs).getD i none = none)
    ∧ ∀ v : ℚ, xs.getD i none = some v →
        (norm xs).getD i none = some ((v - colMin xs) / (colMax xs - colMin xs + eps)))
  ∧ (nnCount xs ≤ 1 →
    (xs.getD i none = none → (norm xs).getD i none = some (1/2))
    ∧ ∀ v : ℚ, xs.getD i none = some v → (norm xs).getD i none = some v)

/-- C1 (amended): in the Ranking Engine's normalization, a column with
more than one non-null value is min-max scaled on its non-null entries
while its null entries REMAIN null (they are not filled with 0.5); a
column with at most one non-null value has its null entries filled with
0.5 while its non-null entry (if any) KEEPS its original value (it is
not replaced by 0.5). -/
theorem C1_normalization_amended (xs : List (Option ℚ)) (i : Nat) (hi : i < xs.length) :
    normSpecAt xs i := by
  have hg := norm_getD xs i hi
  constructor
  · intro h1
    rw [if_pos h1] at hg
    constructor
    · intro hnone; rw [hg, hnone]; rfl
    · intro v hv; rw [hg, hv]; rfl
  · intro h1
    rw [if_neg (by omega)] at hg
    constructor
    · intro hnone; rw [hg, hnone]; rfl
    · intro v hv; rw [hg, hv]; rfl

/-- Closed witness for `C1_normalization_amended` at concrete columns
exercising both branches. -/
theorem C1_normalization_amended_witness :
    (2 < [some (1:ℚ), some 2, none].length ∧ normSpecAt [some (1:ℚ), some 2, none] 2)
    ∧ (0 < [some (4:ℚ), none].length ∧ normSpecAt [some (4:ℚ), none] 0) :=
  ⟨⟨by decide, C1_normalization_amended [some (1:ℚ), some 2, none] 2 (by decide)⟩,
   ⟨by decide, C1_normalization_amended [some (4:ℚ), none] 0 (by decide)⟩⟩

/-- C1 counterexample: in a column with two non-null values the null
entry is NOT filled with 0.5 (it stays null), and in a column with a
single non-null value 4 that entry is NOT set to 0.5 (it stays 4), so
both halves of the claim fail on the code. -/
theorem C1_cex :
    (norm [some 1, some 2, none]).getD 2 none = none
    ∧ (norm [some 4, none]).getD 0 none = some 4
    ∧ (none : Option ℚ) ≠ some (1/2)
    ∧ (some (4:ℚ)) ≠ some (1/2) := by
  refine ⟨?_, ?_, by simp, by norm_num⟩
  · with_unfolding_all decide
  · with_unfolding_all decide

/-! ### IEEE-754 binary64 model for claim C10

Claim C10 concerns the float boundary of line 176: whether
`(max - min) / (max - min + 1e-9)` can reach exactly 1.0.  Every other
claim's arithmetic facts survive exact-rational modelling, but this one
does not: in the program's float64 arithmetic the `+ 1e-9` is absorbed
by rounding once `max - min` is large enough.  The scaling expression
is therefore additionally modelled under binary64 round-to-nearest-even
semantics: every binary64 value is an exact rational, and each float
operation is the exact rational result rounded by `fl`.  (Overflow and
subnormals are far outside the magnitudes involved and are not
modelled; the exact rational inputs below are exactly representable.) -/

/-- Fuel-based binary logarithm (structural recursion keeps it cheap to
reduce; exact for arguments below `2^128`, far above every magnitude
used here). -/
def log2fuel : Nat → Nat → Nat
  | 0, _ => 0
  | fuel + 1, n => if 2 ≤ n then log2fuel fuel (n / 2) + 1 else 0

def log2N (n : Nat) : Nat := log2fuel 128 n

/-- The binade exponent of the positive rational `a / b`: the unique
`e` with `2^e ≤ a/b < 2^(e+1)`. -/
def exp2FloorN (a b : Nat) : ℤ :=
  if b ≤ a then (log2N (a / b) : ℤ)
  else
    (log2N ((a * 2 ^ (log2N b + 1)) / b) : ℤ) - (log2N b + 1)

/-- Round a rational to the nearest IEEE-754 binary64 value: scale the
magnitude into `[2^52, 2^53)`, round the 53-bit significand to nearest
with ties to even (`roundHalfEven`), and scale back. -/
def fl (q : ℚ) : ℚ :=
  if q.num = 0 then 0
  else
    let a : ℕ := q.num.natAbs
    let b : ℕ := q.den
    let e : ℤ := exp2FloorN a b
    let n : ℤ :=
      if 0 ≤ 52 - e then roundHalfEven (Rat.divInt ((a : ℤ) * 2 ^ (52 - e).toNat) (b : ℤ))
      else roundHalfEven (Rat.divInt (a : ℤ) ((b : ℤ) * 2 ^ (e - 52).toNat))
    let r : ℚ :=
      if 0 ≤ e - 52 then Rat.divInt (n * 2 ^ (e - 52).toNat) 1
      else Rat.divInt n (2 ^ (52 - e).toNat)
    if q.num < 0 then -r else r

/-- Exact rational addition, spelled through `Rat.divInt` on numerators
and denominators (equal to `x + y`; this form reduces cheaply). -/
def qadd (x y : ℚ) : ℚ :=
  Rat.divInt (x.num * (y.den : ℤ) + y.num * (x.den : ℤ)) ((x.den : ℤ) * (y.den : ℤ))

/-- Exact rational subtraction (equal to `x - y`). -/
def qsub (x y : ℚ) : ℚ :=
  Rat.divInt (x.num * (y.den : ℤ) - y.num * (x.den : ℤ)) ((x.den : ℤ) * (y.den : ℤ))

/-- Exact rational division (equal to `x / y` for `y ≠ 0`). -/
def qdiv (x y : ℚ) : ℚ := Rat.divInt (x.num * (y.den : ℤ)) ((x.den : ℤ) * y.num)

/-- binary64 addition: the exact sum, correctly rounded. -/
def fadd (x y : ℚ) : ℚ := fl (qadd x y)

/-- binary64 subtraction: the exact difference, correctly rounded. -/
def fsub (x y : ℚ) : ℚ := fl (qsub x y)

/-- binary64 division: the exact quotient, correctly rounded. -/
def fdiv64 (x y : ℚ) : ℚ := fl (qdiv x y)

/-- The binary64 value of line 176's literal `1e-9`
(`4835703278458517 / 2^82`). -/
def eps64 : ℚ := fl (Rat.divInt 1 1000000000)

/-- Lines 174-176's `norm` with the scaling arithmetic performed in
float64 exactly as the program executes it: `c - c.min()` per entry,
`c.max() - c.min() + 1e-9` once (left to right), then the per-entry
division; the skip-NA min/max pick existing column values and involve
no rounding. -/
def normF64 (xs : List (Option ℚ)) : List (Option ℚ) :=
  if 1 < nnCount xs then
    xs.map (Option.map fun v =>
      fdiv64 (fsub v (colMin xs)) (fadd (fsub (colMax xs) (colMin xs)) eps64))
  else
    xs.map fun x => some (x.getD (1/2))

set_option maxRecDepth 6000 in
/-- C10 counterexample: on the volume column `[0, 2^24]` (two distinct
non-null values, both exactly representable, difference computed
exactly), the program's float64 arithmetic absorbs the `+ 1e-9`
(`1e-9` is below the half-ulp `2^-29` of `2^24`), so the denominator
equals the numerator and the column maximum normalizes to EXACTLY 1.0,
refuting the claim that normalized components stay strictly below 1. -/
theorem C10_cex :
    (normF64 [some 0, some 16777216]).getD 1 none = some 1
    ∧ (0 : ℚ) ≠ 16777216 := by
  constructor
  · with_unfolding_all decide
  · norm_num

set_option maxRecDepth 6000 in
/-- C10 (amended): in exact arithmetic the cell holding the column
maximum normalizes to `(max - min) / (max - min + 1e-9)` and every
normalized value stays strictly below 1; but the program computes in
IEEE-754 binary64, where the `+ 1e-9` is absorbed by rounding once
`max - min` is large enough (about `9.0e6` and beyond), making the
normalized maximum exactly 1.0 — as the float64 model shows on the
column `[0, 2^24]`. -/
theorem C10_eps_amended (xs : List (Option ℚ))
    (h2 : ∃ a ∈ xs.filterMap id, ∃ b ∈ xs.filterMap id, a ≠ b) :
    ((∀ i, i < xs.length → xs.getD i none = some (colMax xs) →
      (norm xs).getD i none
        = some ((colMax xs - colMin xs) / (colMax xs - colMin xs + eps)))
    ∧ (∀ o ∈ norm xs, ∀ q : ℚ, o = some q → q < 1))
    ∧ (normF64 [some 0, some 16777216]).getD 1 none = some 1 := by
  have h1 : 1 < nnCount xs := by
    obtain ⟨a, ha, b, hb, hab⟩ := h2
    rw [nnCount]
    rcases hl : xs.filterMap id with _ | ⟨x, _ | ⟨y, t⟩⟩
    · rw [hl] at ha; simp at ha
    · rw [hl] at ha hb
      simp only [List.mem_singleton] at ha hb
      exact absurd (ha.trans hb.symm) hab
    · simp
  refine ⟨⟨?_, ?_⟩, ?_⟩
  · intro i hi hmax
    have hg := norm_getD xs i hi
    rw [if_pos h1, hmax] at hg
    rw [hg]
    rfl
  · intro o ho q hq
    exact (norm_mem_bounds h1 o ho q hq).2
  · with_unfolding_all decide

set_option maxRecDepth 6000 in
/-- Closed witness for `C10_eps_amended` at a concrete column. -/
theorem C10_eps_amended_witness :
    (∃ a ∈ [some (0:ℚ), some 1].filterMap id,
      ∃ b ∈ [some (0:ℚ), some 1].filterMap id, a ≠ b)
    ∧ (((∀ i, i < [some (0:ℚ), some 1].length
          → [some (0:ℚ), some 1].getD i none = some (colMax [some (0:ℚ), some 1])
          → (norm [some (0:ℚ), some 1]).getD i none
            = some ((colMax [some (0:ℚ), some 1] - colMin [some (0:ℚ), some 1])
                / (colMax [some (0:ℚ), some 1] - colMin [some (0:ℚ), some 1] + eps)))
        ∧ ∀ o ∈ norm [some (0:ℚ), some 1], ∀ q : ℚ, o = some q → q < 1)
      ∧ (normF64 [some 0, some 16777216]).getD 1 none = some 1) :=
  ⟨⟨0, by simp, 1, by simp, by norm_num⟩,
   C10_eps_amended [some (0:ℚ), some 1] ⟨0, by simp, 1, by simp, by norm_num⟩⟩

/-! ## Membership lemmas for `rank_shops` outputs, claims C2 / C6 -/

theorem sortDescByScore_mem {rows : List BaseRow} {r : BaseRow}
    (hr : r ∈ sortDescByScore rows) : r ∈ rows ∨ r = {} := by
  obtain ⟨i, _, rfl⟩ := List.mem_map.mp hr
  rw [List.getD_eq_getElem?_getD]
  rcases h : rows[i]? with _ | a
  · right; rfl
  · left
    simpa using List.getElem?_mem h

theorem rank_shops_mem {canon : List CanonRow} {ys : List ScoreRow} {yRaw : List YRow}
    {r : BaseRow} (hr : r ∈ rank_shops canon ys yRaw) :
    r ∈ scoreRows (rankBase canon ys yRaw) ∨ r = {} := by
  rw [rank_shops] at hr
  split at hr
  · simp at hr
  · exact sortDescByScore_mem hr

theorem scoreRows_mem {rows : List BaseRow} {r : BaseRow} (hr : r ∈ scoreRows rows) :
    ∃ r0 ∈ rows, ∃ a ∈ norm (rows.map (·.stars)), ∃ b ∈ norm (rows.map (·.volume)),
      ∃ c ∈ norm (rows.map (·.sentiment)), r = { r0 with score := combineScore a b c } := by
  simp only [scoreRows] at hr
  obtain ⟨p, hp, rfl⟩ := List.mem_map.mp hr
  obtain ⟨h1, h2⟩ := List.of_mem_zip hp
  obtain ⟨h3, h4⟩ := List.of_mem_zip h2
  obtain ⟨h5, h6⟩ := List.of_mem_zip h4
  exact ⟨p.1, h1, p.2.1, h3, p.2.2.1, h5, p.2.2.2, h6, rfl⟩

theorem combineScore_bounds {a b c : Option ℚ} {q : ℚ}
    (hq : combineScore a b c = some q)
    (ha : ∀ x : ℚ, a = some x → 0 ≤ x ∧ x < 1)
    (hb : ∀ x : ℚ, b = some x → 0 ≤ x ∧ x < 1)
    (hc : ∀ x : ℚ, c = some x → 0 ≤ x ∧ x < 1) : 0 ≤ q ∧ q ≤ 1 := by
  cases a with
  | none => simp [combineScore] at hq
  | some x =>
    cases b with
    | none => simp [combineScore] at hq
    | some y =>
      cases c with
      | none => simp [combineScore] at hq
      | some z =>
        simp only [combineScore, Option.some.injEq] at hq
        subst hq
        obtain ⟨hx0, hx1⟩ := ha x rfl
        obtain ⟨hy0, hy1⟩ := hb y rfl
        obtain ⟨hz0, hz1⟩ := hc z rfl
        constructor <;> nlinarith

/-- C2 (amended): when each of the three derived columns has more than
one non-null value, every non-null composite score lies in [0, 1]
(rows whose sentiment, stars or volume is null get a null score instead,
and when some column has at most one non-null value the unscaled values
can push the score far outside [0, 1]). -/
theorem C2_score_bounds_amended (canon : List CanonRow) (ys : List ScoreRow) (yRaw : List YRow)
    (h1 : 1 < nnCount ((rankBase canon ys yRaw).map (·.stars)))
    (h2 : 1 < nnCount ((rankBase canon ys yRaw).map (·.volume)))
    (h3 : 1 < nnCount ((rankBase canon ys yRaw).map (·.sentiment))) :
    ∀ r ∈ rank_shops canon ys yRaw, ∀ q : ℚ, r.score = some q → 0 ≤ q ∧ q ≤ 1 := by
  intro r hr q hq
  rcases rank_shops_mem hr with hmem | rfl
  · obtain ⟨r0, _, a, haM, b, hbM, c, hcM, rfl⟩ := scoreRows_mem hmem
    have hsc : combineScore a b c = some q := hq
    exact combineScore_bounds hsc
      (fun x hx => norm_mem_bounds h1 a haM x hx)
      (fun x hx => norm_mem_bounds h2 b hbM x hx)
      (fun x hx => norm_mem_bounds h3 c hcM x hx)
  · exact Option.noConfusion hq

/-- A canonical row whose only data is a Google rating and volume. -/
def cSingle : CanonRow := { rating_google := some 4, user_ratings_total := some 100 }

set_option maxRecDepth 10000 in
/-- C2 counterexample: ranking a single shop with `rating_google = 4`,
`user_ratings_total = 100` (all columns then have at most one non-null
value, so `fillna(0.5)` keeps the non-null values unscaled) produces the
composite score `0.6*4 + 0.3*100 + 0.1*0.5 = 32.45 ∉ [0, 1]`. -/
theorem C2_cex :
    ((rank_shops [cSingle] [] []).map (·.score)) = [some (649/20)]
    ∧ ¬ ((649 : ℚ)/20 ≤ 1) := by
  constructor
  · with_unfolding_all decide
  · norm_num

/-- Two canonical rows giving every derived column two non-null values. -/
def cPairA : CanonRow :=
  { rating_google := some 1, user_ratings_total := some 10, yelp_id := some "a" }

def cPairB : CanonRow :=
  { rating_google := some 2, user_ratings_total := some 20, yelp_id := some "b" }

/-- Closed witness for `C2_score_bounds_amended` at a concrete input. -/
theorem C2_score_bounds_amended_witness :
    (1 < nnCount ((rankBase [cPairA, cPairB]
        [{ yelp_id := some "a", compound := some 0 }, { yelp_id := some "b", compound := some 1 }]
        []).map (·.stars))
      ∧ 1 < nnCount ((rankBase [cPairA, cPairB]
        [{ yelp_id := some "a", compound := some 0 }, { yelp_id := some "b", compound := some 1 }]
        []).map (·.volume))
      ∧ 1 < nnCount ((rankBase [cPairA, cPairB]
        [{ yelp_id := some "a", compound := some 0 }, { yelp_id := some "b", compound := some 1 }]
        []).map (·.sentiment)))
    ∧ ∀ r ∈ rank_shops [cPairA, cPairB]
        [{ yelp_id := some "a", compound := some 0 }, { yelp_id := some "b", compound := some 1 }]
        [], ∀ q : ℚ, r.score = some q → 0 ≤ q ∧ q ≤ 1 :=
  ⟨⟨by with_unfolding_all decide, by with_unfolding_all decide, by with_unfolding_all decide⟩,
   C2_score_bounds_amended _ _ _
     (by with_unfolding_all decide) (by with_unfolding_all decide)
     (by with_unfolding_all decide)⟩

/-- The claim C6's description of `stars` (skip-NA mean, null when both
ratings are null — not zero) and `volume` (skip-NA max, null when both
counts are null) for one row. -/
def starsVolumeSpec (r : BaseRow) : Prop :=
  (r.rating_google = none → r.rating_yelp = none → r.stars = none)
  ∧ (∀ x y : ℚ, r.rating_google = some x → r.rating_yelp = some y
      → r.stars = some ((x + y) / 2))
  ∧ (∀ x : ℚ, r.rating_google = some x → r.rating_yelp = none → r.stars = some x)
  ∧ (∀ y : ℚ, r.rating_google = none → r.rating_yelp = some y → r.stars = some y)
  ∧ (r.user_ratings_total = none → r.review_count = none → r.volume = none)
  ∧ (∀ x y : ℚ, r.user_ratings_total = some x → r.review_count = some y
      → r.volume = some (max x y))
  ∧ (∀ x : ℚ, r.user_ratings_total = some x → r.review_count = none → r.volume = some x)
  ∧ (∀ y : ℚ, r.user_ratings_total = none → r.review_count = some y → r.volume = some y)

theorem starsVolumeSpec_of (r : BaseRow)
    (hs : r.stars = rowMean2 r.rating_google r.rating_yelp)
    (hv : r.volume = rowMax2 r.user_ratings_total r.review_count) :
    starsVolumeSpec r := by
  refine ⟨?_, ?_, ?_, ?_, ?_, ?_, ?_, ?_⟩
  · intro h1 h2; rw [hs, h1, h2]; rfl
  · intro x y h1 h2; rw [hs, h1, h2]; rfl
  · intro x h1 h2; rw [hs, h1, h2]; rfl
  · intro y h1 h2; rw [hs, h1, h2]; rfl
  · intro h1 h2; rw [hv, h1, h2]; rfl
  · intro x y h1 h2; rw [hv, h1, h2]; rfl
  · intro x h1 h2; rw [hv, h1, h2]; rfl
  · intro y h1 h2; rw [hv, h1, h2]; rfl

theorem addMetrics_mem {rows : List BaseRow} {r0 : BaseRow} (h : r0 ∈ addMetrics rows) :
    r0.stars = rowMean2 r0.rating_google r0.rating_yelp
    ∧ r0.volume = rowMax2 r0.user_ratings_total r0.review_count := by
  simp only [addMetrics, List.mem_map] at h
  obtain ⟨r1, _, rfl⟩ := h
  exact ⟨rfl, rfl⟩

/-- C6: in every Ranking Engine output row, `stars` is the arithmetic
mean of the non-null per-source ratings and `volume` is the maximum of
the non-null per-source counts; in each case the result is null — not
zero — when both inputs are null. -/
theorem C6_stars_volume (canon : List CanonRow) (ys : List ScoreRow) (yRaw : List YRow) :
    ∀ r ∈ rank_shops canon ys yRaw, starsVolumeSpec r := by
  intro r hr
  rcases rank_shops_mem hr with hmem | rfl
  · obtain ⟨r0, hr0, a, _, b, _, c, _, rfl⟩ := scoreRows_mem hmem
    have hm := @addMetrics_mem (joinCompound (joinYName canon yRaw) ys) _ hr0
    exact starsVolumeSpec_of _ hm.1 hm.2
  · exact starsVolumeSpec_of _ rfl rfl

/-- A canonical row carrying both ratings and both counts. -/
def cBoth : CanonRow :=
  { rating_google := some 4, rating_yelp := some 5, user_ratings_total := some 10,
    review_count := some 20 }

/-- Closed witness for `C6_stars_volume` at a concrete input. -/
theorem C6_stars_volume_witness :
    ((rank_shops [cBoth] [] []).getD 0 {}) ∈ rank_shops [cBoth] [] []
    ∧ starsVolumeSpec ((rank_shops [cBoth] [] []).getD 0 {}) :=
  ⟨by with_unfolding_all decide,
   C6_stars_volume [cBoth] [] [] _ (by with_unfolding_all decide)⟩

/-! ## Length preservation through the sort and the joins, claim C9 -/

theorem npInsert_perm (v : Nat → ℚ) (x : Nat) (l : List Nat) :
    (npInsert v x l).Perm (x :: l) := by
  induction l with
  | nil => simp [npInsert]
  | cons y ys ih =>
    rw [npInsert]
    split
    · exact List.Perm.refl _
    · exact (ih.cons y).trans (List.Perm.swap x y ys)

theorem npInsArgsort_perm (v : Nat → ℚ) (l : List Nat) : (npInsArgsort v l).Perm l := by
  have key : ∀ acc : List Nat,
      (l.foldl (fun acc x => npInsert v x acc) acc).Perm (acc ++ l) := by
    induction l with
    | nil => intro acc; simp
    | cons x xs ih =>
      intro acc
      rw [List.foldl_cons]
      have hh1 := ih (npInsert v x acc)
      have hh2 : ((npInsert v x acc) ++ xs).Perm ((x :: acc) ++ xs) :=
        (npInsert_perm v x acc).append_right xs
      have hh3 : ((x :: acc) ++ xs).Perm (acc ++ x :: xs) := by
        rw [List.cons_append]
        exact List.perm_middle.symm
      exact (hh1.trans hh2).trans hh3
  have hkey := key []
  rw [List.nil_append] at hkey
  exact hkey

theorem npInsArgsort_length (v : Nat → ℚ) (l : List Nat) :
    (npInsArgsort v l).length = l.length :=
  (npInsArgsort_perm v l).length_eq

theorem swapL_length (l : List Nat) (i j : Nat) : (swapL l i j).length = l.length := by
  simp [swapL]

theorem partLoop_length (v : Nat → ℚ) (vp : ℚ) :
    ∀ (fuel : Nat) (l : List Nat) (pi pj : Nat),
      ((partLoop v vp fuel l pi pj).1).length = l.length := by
  intro fuel
  induction fuel with
  | zero => intro l pi pj; rfl
  | succ fuel ih =>
    intro l pi pj
    rw [partLoop]
    split
    · rfl
    · rw [ih, swapL_length]

theorem ite_length_swapL (c : Prop) [Decidable c] (l : List Nat) (i j : Nat) :
    (if c then swapL l i j else l).length = l.length := by
  split
  · exact swapL_length l i j
  · rfl

theorem partitionAt_length (v : Nat → ℚ) (l : List Nat) (pl pr : Nat) :
    ((partitionAt v l pl pr).1).length = l.length := by
  simp only [partitionAt, swapL_length, partLoop_length, ite_length_swapL]

theorem setH_length (a : List Nat) (k x : Nat) : (setH a k x).length = a.length := by
  simp [setH]

theorem heapSiftLoop_length (v : Nat → ℚ) :
    ∀ (fuel : Nat) (a : List Nat) (tmp i j n : Nat),
      ((heapSiftLoop v fuel a tmp i j n).1).length = a.length := by
  intro fuel
  induction fuel with
  | zero => intro a tmp i j n; rfl
  | succ fuel ih =>
    intro a tmp i j n
    simp only [heapSiftLoop]
    split
    · split <;> split <;> first | (rw [ih, setH_length]) | rfl
    · rfl

theorem heapBuild_length (v : Nat → ℚ) :
    ∀ (fuel : Nat) (a : List Nat) (l n : Nat),
      (heapBuild v fuel a l n).length = a.length := by
  intro fuel
  induction fuel with
  | zero => intro a l n; rfl
  | succ fuel ih =>
    intro a l n
    simp only [heapBuild]
    split
    · rw [ih, setH_length, heapSiftLoop_length]
    · rfl

theorem heapExtract_length (v : Nat → ℚ) :
    ∀ (fuel : Nat) (a : List Nat) (n : Nat),
      (heapExtract v fuel a n).length = a.length := by
  intro fuel
  induction fuel with
  | zero => intro a n; rfl
  | succ fuel ih =>
    intro a n
    simp only [heapExtract]
    split
    · rw [ih, setH_length, heapSiftLoop_length, setH_length]
    · rfl

theorem heapsortSeg_length (v : Nat → ℚ) (s : List Nat) :
    (heapsortSeg v s).length = s.length := by
  rw [heapsortSeg, heapExtract_length, heapBuild_length]

theorem applySeg_length (f : List Nat → List Nat) (l : List Nat) (pl pr : Nat)
    (hf : ∀ s, (f s).length = s.length) :
    (applySeg f l pl pr).length = l.length := by
  simp only [applySeg, List.length_append, hf, List.length_take, List.length_drop]
  omega

theorem qsLoop_length (v : Nat → ℚ) :
    ∀ (fuel : Nat) (l : List Nat) (pl pr : Nat) (d : Int) (st : List (Nat × Nat)),
      (qsLoop v fuel l pl pr d st).length = l.length := by
  intro fuel
  induction fuel with
  | zero => intro l pl pr d st; rfl
  | succ fuel ih =>
    intro l pl pr d st
    simp only [qsLoop]
    split
    · split
      · rcases st with _ | ⟨⟨a, b⟩, rest⟩
        · exact applySeg_length _ _ _ _ (heapsortSeg_length v)
        · rw [ih, applySeg_length _ _ _ _ (heapsortSeg_length v)]
      · split
        · rw [ih, partitionAt_length]
        · rw [ih, partitionAt_length]
    · rcases st with _ | ⟨⟨a, b⟩, rest⟩
      · exact applySeg_length _ _ _ _ (npInsArgsort_length v)
      · rw [ih, applySeg_length _ _ _ _ (npInsArgsort_length v)]

theorem npArgsortKernel_length (v : Nat → ℚ) (l : List Nat) :
    (npArgsortKernel v l).length = l.length := by
  rw [npArgsortKernel, qsLoop_length]

theorem nargsortDesc_length (scores : List (Option ℚ)) :
    (nargsortDesc scores).length = scores.length := by
  have hperm := (List.filter_append_perm
    (scoreSome scores) (List.range scores.length)).length_eq
  simp only [List.length_append, List.length_range] at hperm
  simp only [nargsortDesc, List.length_append, List.length_reverse, npArgsortKernel_length]
  omega

theorem sortDescByScore_length (rows : List BaseRow) :
    (sortDescByScore rows).length = rows.length := by
  rw [sortDescByScore, List.length_map, nargsortDesc_length, List.length_map]

theorem norm_length (xs : List (Option ℚ)) : (norm xs).length = xs.length := by
  rw [norm]; split <;> simp

theorem scoreRows_length (rows : List BaseRow) : (scoreRows rows).length = rows.length := by
  simp [scoreRows, norm_length]

theorem flatMap_singleton_length {α β : Type} (f : α → List β) (l : List α)
    (h : ∀ a ∈ l, (f a).length = 1) : (l.flatMap f).length = l.length := by
  induction l with
  | nil => rfl
  | cons a l ih =>
    rw [List.flatMap_cons, List.length_append, h a (List.mem_cons_self _ _),
      ih fun b hb => h b (List.mem_cons_of_mem _ hb), List.length_cons]
    omega

theorem joinYName_length {canon : List CanonRow} {yRaw : List YRow}
    (h : ∀ r ∈ canon, (yRaw.filter fun yr => yr.yelp_id = r.yelp_id).length ≤ 1) :
    (joinYName canon yRaw).length = canon.length := by
  rw [joinYName]
  split
  · simp
  · apply flatMap_singleton_length
    intro r hr
    have hle := h r hr
    split
    · rfl
    · rename_i hne
      rw [List.length_map]
      have hlen : (yRaw.filter fun yr => yr.yelp_id = r.yelp_id).length ≠ 0 := by
        intro h0
        exact hne (List.isEmpty_iff_length_eq_zero.mpr h0)
      omega

theorem joinCompound_length {base : List BaseRow} {ys : List ScoreRow}
    (h : ∀ r ∈ base, (ys.filter fun s => s.yelp_id = r.yelp_id).length ≤ 1) :
    (joinCompound base ys).length = base.length := by
  rw [joinCompound]
  split
  · rfl
  · apply flatMap_singleton_length
    intro r hr
    have hle := h r hr
    split
    · rfl
    · rename_i hne
      rw [List.length_map]
      have hlen : (ys.filter fun s => s.yelp_id = r.yelp_id).length ≠ 0 := by
        intro h0
        exact hne (List.isEmpty_iff_length_eq_zero.mpr h0)
      omega

theorem joinYName_yelp_id {canon : List CanonRow} {yRaw : List YRow} :
    ∀ b ∈ joinYName canon yRaw, ∃ r ∈ canon, b.yelp_id = r.yelp_id := by
  rw [joinYName]
  split
  · intro b hb
    obtain ⟨r, hr, rfl⟩ := List.mem_map.mp hb
    exact ⟨r, hr, rfl⟩
  · intro b hb
    obtain ⟨r, hr, hm⟩ := List.mem_flatMap.mp hb
    split at hm
    · rw [List.mem_singleton] at hm
      subst hm
      exact ⟨r, hr, rfl⟩
    · obtain ⟨yr, _, rfl⟩ := List.mem_map.mp hm
      exact ⟨r, hr, rfl⟩

theorem addMetrics_length (rows : List BaseRow) : (addMetrics rows).length = rows.length := by
  simp [addMetrics]

theorem rankBase_length {canon : List CanonRow} {ys : List ScoreRow} {yRaw : List YRow}
    (h1 : ∀ r ∈ canon, (yRaw.filter fun yr => yr.yelp_id = r.yelp_id).length ≤ 1)
    (h2 : ∀ r ∈ canon, (ys.filter fun s => s.yelp_id = r.yelp_id).length ≤ 1) :
    (rankBase canon ys yRaw).length = canon.length := by
  rw [rankBase, addMetrics_length, joinCompound_length, joinYName_length h1]
  intro b hb
  obtain ⟨r, hr, he⟩ := joinYName_yelp_id b hb
  rw [he]
  exact h2 r hr

theorem norm_isSome_at {xs : List (Option ℚ)} {i : Nat} (hi : i < xs.length)
    (hx : (xs.getD i none).isSome) : ((norm xs).getD i none).isSome := by
  rw [norm_getD xs i hi]
  split
  · rcases h : xs.getD i none with _ | v
    · rw [h] at hx; simp at hx
    · simp
  · simp

theorem combineScore_isSome {a b c : Option ℚ} (ha : a.isSome) (hb : b.isSome)
    (hc : c.isSome) : (combineScore a b c).isSome := by
  cases a <;> cases b <;> cases c <;> simp_all [combineScore]

theorem getD_eq_getElem_of_lt {α : Type} (l : List α) (d : α) {i : Nat} (h : i < l.length) :
    l.getD i d = l[i] := by
  rw [List.getD_eq_getElem?_getD, List.getElem?_eq_getElem h]
  rfl

theorem scoreRows_pointwise (rows : List BaseRow) (i : Nat) (hi : i < rows.length)
    (hsc : i < (scoreRows rows).length)
    (h1 : i < (norm (rows.map (·.stars))).length)
    (h2 : i < (norm (rows.map (·.volume))).length)
    (h3 : i < (norm (rows.map (·.sentiment))).length) :
    (scoreRows rows)[i] = { rows[i] with
      score := combineScore (norm (rows.map (·.stars)))[i]
        (norm (rows.map (·.volume)))[i] (norm (rows.map (·.sentiment)))[i] } := by
  simp [scoreRows, List.getElem_map, List.getElem_zip]

theorem scoreRows_score_isSome {rows : List BaseRow} :
    ∀ r ∈ scoreRows rows, r.stars.isSome → r.volume.isSome → r.sentiment.isSome
      → r.score.isSome := by
  intro r hr hs hv hc
  obtain ⟨i, hi, heq⟩ := List.mem_iff_getElem.mp hr
  have hlen : i < rows.length := by
    rw [scoreRows_length] at hi
    exact hi
  have hb0 : i < (rows.map (·.stars)).length := by
    rw [List.length_map]; exact hlen
  have hb0' : i < (rows.map (·.volume)).length := by
    rw [List.length_map]; exact hlen
  have hb0'' : i < (rows.map (·.sentiment)).length := by
    rw [List.length_map]; exact hlen
  have hb1 : i < (norm (rows.map (·.stars))).length := by
    rw [norm_length]; exact hb0
  have hb2 : i < (norm (rows.map (·.volume))).length := by
    rw [norm_length]; exact hb0'
  have hb3 : i < (norm (rows.map (·.sentiment))).length := by
    rw [norm_length]; exact hb0''
  have hpw := scoreRows_pointwise rows i hlen hi hb1 hb2 hb3
  rw [← heq, hpw] at hs hv hc ⊢
  have hn1 : ((norm (rows.map (·.stars))).getD i none).isSome := by
    apply norm_isSome_at hb0
    rw [getD_eq_getElem_of_lt _ _ hb0, List.getElem_map]
    exact hs
  have hn2 : ((norm (rows.map (·.volume))).getD i none).isSome := by
    apply norm_isSome_at hb0'
    rw [getD_eq_getElem_of_lt _ _ hb0', List.getElem_map]
    exact hv
  have hn3 : ((norm (rows.map (·.sentiment))).getD i none).isSome := by
    apply norm_isSome_at hb0''
    rw [getD_eq_getElem_of_lt _ _ hb0'', List.getElem_map]
    exact hc
  rw [getD_eq_getElem_of_lt _ _ hb1] at hn1
  rw [getD_eq_getElem_of_lt _ _ hb2] at hn2
  rw [getD_eq_getElem_of_lt _ _ hb3] at hn3
  exact combineScore_isSome hn1 hn2 hn3

/-- C9 (amended): the Ranking Engine outputs exactly one RankedShop per
CanonicalShop provided the source-B id joined against matches at most
one raw source-B row and at most one sentiment row per shop (otherwise
the left merges duplicate rows); and a row's `score` is non-null
whenever its `stars`, `volume` and `sentiment` are all non-null (it is
null otherwise, e.g. for a shop without sentiment while at least two
other shops have sentiment). -/
theorem C9_one_row_per_shop_amended (canon : List CanonRow) (ys : List ScoreRow)
    (yRaw : List YRow)
    (h1 : ∀ r ∈ canon, (yRaw.filter fun yr => yr.yelp_id = r.yelp_id).length ≤ 1)
    (h2 : ∀ r ∈ canon, (ys.filter fun s => s.yelp_id = r.yelp_id).length ≤ 1) :
    (rank_shops canon ys yRaw).length = canon.length
    ∧ ∀ r ∈ rank_shops canon ys yRaw,
        r.stars.isSome → r.volume.isSome → r.sentiment.isSome → r.score.isSome := by
  constructor
  · rw [rank_shops]
    split
    · rename_i hc
      rw [List.isEmpty_iff.mp hc]
      rfl
    · rw [sortDescByScore_length, scoreRows_length, rankBase_length h1 h2]
  · intro r hr hs hv hc
    rcases rank_shops_mem hr with hmem | rfl
    · exact scoreRows_score_isSome r hmem hs hv hc
    · simp at hs

/-- A canonical row whose id matches two raw source-B rows. -/
def cDup : CanonRow := { yelp_id := some "a" }

def yDup1 : YRow := { yelp_id := some "a", name := some "x" }

def yDup2 : YRow := { yelp_id := some "a", name := some "y" }

def canonABC : List CanonRow :=
  [{ yelp_id := some "a", rating_google := some 4 },
   { yelp_id := some "b", rating_google := some 4 },
   { yelp_id := some "c", rating_google := some 4 }]

def scoresAB : List ScoreRow :=
  [{ yelp_id := some "a", compound := some (1/2) },
   { yelp_id := some "b", compound := some (4/5) }]

set_option maxRecDepth 10000 in
/-- C9 counterexample: (i) one CanonicalShop whose `yelp_id` matches two
raw source-B rows yields TWO output rows, not one; (ii) with three shops
of which only two have sentiment, the third shop's score is null, not
present. -/
theorem C9_cex :
    (rank_shops [cDup] [] [yDup1, yDup2]).length = 2
    ∧ none ∈ (rank_shops canonABC scoresAB []).map (·.score) := by
  constructor
  · with_unfolding_all decide
  · with_unfolding_all decide

/-- Closed witness for `C9_one_row_per_shop_amended` at a concrete input. -/
theorem C9_one_row_per_shop_amended_witness :
    (∀ r ∈ [cPairA, cPairB], (([] : List YRow).filter fun yr =>
        yr.yelp_id = r.yelp_id).length ≤ 1)
    ∧ (∀ r ∈ [cPairA, cPairB], (([] : List ScoreRow).filter fun s =>
        s.yelp_id = r.yelp_id).length ≤ 1)
    ∧ ((rank_shops [cPairA, cPairB] [] []).length = [cPairA, cPairB].length
      ∧ ∀ r ∈ rank_shops [cPairA, cPairB] [] [],
          r.stars.isSome → r.volume.isSome → r.sentiment.isSome → r.score.isSome) :=
  ⟨by decide, by decide,
   C9_one_row_per_shop_amended [cPairA, cPairB] [] [] (by decide) (by decide)⟩

/-! ## Sortedness and stability of the descending sort, claim C7 -/

/-- The sorted-output invariant of the stable insertion kernel on the
reversed index list: ascending values with ties in descending index
order (the final reversal maps this to descending values with ties in
ascending, i.e. original, order). -/
def ascTieDesc (v : Nat → ℚ) (a b : Nat) : Prop := v a < v b ∨ (v a = v b ∧ b < a)

theorem npInsert_pairwise (v : Nat → ℚ) (x : Nat) (acc : List Nat)
    (hacc : acc.Pairwise (ascTieDesc v)) (hgt : ∀ a ∈ acc, x < a) :
    (npInsert v x acc).Pairwise (ascTieDesc v) := by
  induction acc with
  | nil =>
    simp [npInsert]
  | cons y ys ih =>
    rw [npInsert]
    split
    · rename_i hxy
      refine List.Pairwise.cons ?_ hacc
      intro b hb
      rcases List.mem_cons.mp hb with rfl | hb
      · exact Or.inl hxy
      · have hyb := (List.pairwise_cons.mp hacc).1 b hb
        rcases hyb with h | ⟨h, _⟩
        · exact Or.inl (lt_trans hxy h)
        · exact Or.inl (h ▸ hxy)
    · rename_i hxy
      have hys := (List.pairwise_cons.mp hacc).2
      have hyall := (List.pairwise_cons.mp hacc).1
      refine List.Pairwise.cons ?_ (ih hys fun a ha => hgt a (List.mem_cons_of_mem _ ha))
      intro b hb
      rcases List.mem_cons.mp ((npInsert_perm v x ys).subset hb) with rfl | hb2
      · rcases lt_or_eq_of_le (not_lt.mp hxy) with h | h
        · exact Or.inl h
        · exact Or.inr ⟨h, hgt y (List.mem_cons_self _ _)⟩
      · exact hyall b hb2

theorem npInsArgsort_pairwise (v : Nat → ℚ) (l : List Nat)
    (hdec : l.Pairwise fun a b => b < a) :
    (npInsArgsort v l).Pairwise (ascTieDesc v) := by
  have key : ∀ (l' : List Nat) (acc : List Nat), (l'.Pairwise fun a b => b < a)
      → acc.Pairwise (ascTieDesc v) → (∀ a ∈ acc, ∀ y ∈ l', y < a)
      → (l'.foldl (fun acc x => npInsert v x acc) acc).Pairwise (ascTieDesc v) := by
    intro l'
    induction l' with
    | nil => intro acc _ hacc _; exact hacc
    | cons x xs ih =>
      intro acc hl hacc hall
      rw [List.foldl_cons]
      have hx : ∀ y ∈ xs, y < x := (List.pairwise_cons.mp hl).1
      have hxs := (List.pairwise_cons.mp hl).2
      refine ih _ hxs ?_ ?_
      · exact npInsert_pairwise v x acc hacc
          fun a ha => hall a ha x (List.mem_cons_self _ _)
      · intro a ha y hy
        rcases List.mem_cons.mp ((npInsert_perm v x acc).subset ha) with rfl | ha2
        · exact hx y hy
        · exact hall a ha2 y (List.mem_cons_of_mem _ hy)
  exact key l [] hdec (by simp) (by simp)

theorem applySeg_whole (f : List Nat → List Nat) (l : List Nat) :
    applySeg f l 0 (l.length - 1) = f l := by
  rcases l with _ | ⟨a, as⟩
  · simp [applySeg]
  · simp only [applySeg, List.drop_zero, List.take_zero, List.length_cons, List.nil_append]
    have h1 : as.length + 1 - 1 + 1 - 0 = as.length + 1 := by omega
    rw [h1]
    rw [show as.length + 1 = (a :: as).length from rfl, List.take_length]
    simp

/-- On at most 16 positions the quicksort never partitions: the kernel
is exactly the stable insertion sort. -/
theorem npArgsortKernel_small (v : Nat → ℚ) (l : List Nat) (h : l.length ≤ 16) :
    npArgsortKernel v l = npInsArgsort v l := by
  rw [npArgsortKernel]
  rw [show l.length * l.length + 17 = (l.length * l.length + 16) + 1 from rfl]
  rw [qsLoop]
  rw [if_neg (by omega : ¬ 15 < l.length - 1 - 0)]
  exact applySeg_whole _ _

/-- The order the (amended) claim asserts between output positions `i`
and `j` of the descending sort: non-null scores first in non-increasing
order with ties by original position, null scores last in original
position order. -/
def rankedBefore (scores : List (Option ℚ)) (i j : Nat) : Prop :=
  (scoreSome scores i ∧ scoreSome scores j
    ∧ (scoreVal scores j < scoreVal scores i
        ∨ (scoreVal scores i = scoreVal scores j ∧ i < j)))
  ∨ (scoreSome scores i ∧ ¬scoreSome scores j)
  ∨ (¬scoreSome scores i ∧ ¬scoreSome scores j ∧ i < j)

theorem length_filter_scoreSome (scores : List (Option ℚ)) :
    ((List.range scores.length).filter (scoreSome scores)).length = nnCount scores := by
  suffices key : ∀ l : List (Option ℚ),
      ((List.range l.length).filter fun i => (l.getD i none).isSome).length
        = (l.filterMap id).length by
    exact key scores
  intro l
  induction l with
  | nil => rfl
  | cons x xs ih =>
    have hcomp : ((fun i => (((x :: xs).getD i none).isSome)) ∘ Nat.succ)
        = fun i => ((xs.getD i none).isSome) := by
      funext i
      rfl
    rw [List.length_cons, List.range_succ_eq_map, List.filter_cons, List.filter_map, hcomp]
    cases x with
    | none =>
      simp [List.filterMap_cons]
      simpa [List.getD_eq_getElem?_getD] using ih
    | some q =>
      simp [List.filterMap_cons]
      simpa [List.getD_eq_getElem?_getD] using ih

theorem nargsortDesc_sorted_small (scores : List (Option ℚ))
    (h16 : nnCount scores ≤ 16) :
    (nargsortDesc scores).Pairwise (rankedBefore scores)
    ∧ (nargsortDesc scores).Perm (List.range scores.length) := by
  have hrevlen : (((List.range scores.length).filter (scoreSome scores)).reverse).length
      ≤ 16 := by
    rw [List.length_reverse, length_filter_scoreSome]
    exact h16
  have hkernel := npArgsortKernel_small (scoreVal scores)
    (((List.range scores.length).filter (scoreSome scores)).reverse) hrevlen
  have hnnp : ((List.range scores.length).filter (scoreSome scores)).Pairwise (· < ·) :=
    (List.pairwise_lt_range _).filter _
  have hrevp : (((List.range scores.length).filter (scoreSome scores)).reverse).Pairwise
      (fun a b => b < a) := List.pairwise_reverse.mpr hnnp
  have hsorted := npInsArgsort_pairwise (scoreVal scores) _ hrevp
  have hperm1 : (npArgsortKernel (scoreVal scores)
      (((List.range scores.length).filter (scoreSome scores)).reverse)).Perm
      ((List.range scores.length).filter (scoreSome scores)) := by
    rw [hkernel]
    exact (npInsArgsort_perm _ _).trans (List.reverse_perm _)
  have hmemSome : ∀ i ∈ npArgsortKernel (scoreVal scores)
      (((List.range scores.length).filter (scoreSome scores)).reverse),
      scoreSome scores i = true := by
    intro i hi
    exact (List.mem_filter.mp (hperm1.subset hi)).2
  have hmemNone : ∀ i ∈ (List.range scores.length).filter (fun i => !scoreSome scores i),
      ¬ scoreSome scores i = true := by
    intro i hi
    have := (List.mem_filter.mp hi).2
    simp at this
    simp [this]
  constructor
  · rw [nargsortDesc, List.pairwise_append]
    refine ⟨?_, ?_, ?_⟩
    · rw [List.pairwise_reverse]
      rw [hkernel]
      apply List.Pairwise.imp_of_mem ?_ hsorted
      intro a b ha hb hab
      have hma : scoreSome scores a = true := hmemSome a (hkernel ▸ ha)
      have hmb : scoreSome scores b = true := hmemSome b (hkernel ▸ hb)
      rcases hab with h | ⟨h, h2⟩
      · exact Or.inl ⟨hmb, hma, Or.inl h⟩
      · exact Or.inl ⟨hmb, hma, Or.inr ⟨h.symm, h2⟩⟩
    · apply List.Pairwise.imp_of_mem ?_ ((List.pairwise_lt_range _).filter _)
      intro a b ha hb hab
      exact Or.inr (Or.inr ⟨hmemNone a ha, hmemNone b hb, hab⟩)
    · intro a ha b hb
      rw [List.mem_reverse] at ha
      exact Or.inr (Or.inl ⟨hmemSome a ha, hmemNone b hb⟩)
  · rw [nargsortDesc]
    have h1 : ((npArgsortKernel (scoreVal scores)
        (((List.range scores.length).filter (scoreSome scores)).reverse)).reverse).Perm
        ((List.range scores.length).filter (scoreSome scores)) :=
      (List.reverse_perm _).trans hperm1
    have h2 := h1.append
      (List.Perm.refl ((List.range scores.length).filter fun i => !scoreSome scores i))
    exact h2.trans (List.filter_append_perm _ _)

theorem joinYName_nil (yRaw : List YRow) : joinYName [] yRaw = [] := by
  rw [joinYName]
  split <;> rfl

theorem joinCompound_nil (ys : List ScoreRow) : joinCompound [] ys = [] := by
  rw [joinCompound]
  split <;> rfl

theorem rankBase_nil (ys : List ScoreRow) (yRaw : List YRow) : rankBase [] ys yRaw = [] := by
  rw [rankBase, joinYName_nil, joinCompound_nil]
  rfl

/-- C7 (amended): the Ranking Engine's output is the base table
reindexed by `nargsortDesc` of the score column, and — whenever at most
16 rows have a non-null score, so that the `quicksort` kernel is its
insertion-sort small-segment case — that index order is: non-null
scores in non-increasing order with ties in original input order
(stable), followed by the null-score rows in original input order.
For more than 16 non-null scores numpy's quicksort partitioning
reorders ties (see the counterexample), so unconditional stability does
not hold. -/
theorem C7_sort_amended (canon : List CanonRow) (ys : List ScoreRow) (yRaw : List YRow)
    (h16 : nnCount ((scoreRows (rankBase canon ys yRaw)).map (·.score)) ≤ 16) :
    rank_shops canon ys yRaw
      = (nargsortDesc ((scoreRows (rankBase canon ys yRaw)).map (·.score))).map
          (fun i => (scoreRows (rankBase canon ys yRaw)).getD i {})
    ∧ (nargsortDesc ((scoreRows (rankBase canon ys yRaw)).map (·.score))).Pairwise
        (rankedBefore ((scoreRows (rankBase canon ys yRaw)).map (·.score)))
    ∧ (nargsortDesc ((scoreRows (rankBase canon ys yRaw)).map (·.score))).Perm
        (List.range (scoreRows (rankBase canon ys yRaw)).length) := by
  have hs := nargsortDesc_sorted_small _ h16
  refine ⟨?_, hs.1, ?_⟩
  · rw [rank_shops]
    split
    · rename_i hc
      rw [List.isEmpty_iff.mp hc, rankBase_nil]
      rfl
    · rfl
  · have := hs.2
    rwa [List.length_map] at this

set_option maxRecDepth 100000 in
/-- Closed witness for `C7_sort_amended` at a concrete input. -/
theorem C7_sort_amended_witness :
    nnCount ((scoreRows (rankBase [cPairA, cPairB] [] [])).map (·.score)) ≤ 16
    ∧ (rank_shops [cPairA, cPairB] [] []
        = (nargsortDesc ((scoreRows (rankBase [cPairA, cPairB] [] [])).map (·.score))).map
            (fun i => (scoreRows (rankBase [cPairA, cPairB] [] [])).getD i {})
      ∧ (nargsortDesc ((scoreRows (rankBase [cPairA, cPairB] [] [])).map (·.score))).Pairwise
          (rankedBefore ((scoreRows (rankBase [cPairA, cPairB] [] [])).map (·.score)))
      ∧ (nargsortDesc ((scoreRows (rankBase [cPairA, cPairB] [] [])).map (·.score))).Perm
          (List.range (scoreRows (rankBase [cPairA, cPairB] [] [])).length)) :=
  ⟨by with_unfolding_all decide,
   C7_sort_amended [cPairA, cPairB] [] [] (by with_unfolding_all decide)⟩

/-- Seventeen shops with identical data (hence identical scores), with
`canonical_lat` as a per-row tag recording the original position. -/
def c17 : List CanonRow :=
  (List.range 17).map fun i =>
    { canonical_lat := some (Rat.divInt (i : Int) 1), rating_google := some 4 }

set_option maxRecDepth 1000000 in
set_option maxHeartbeats 1000000 in
/-- C7 counterexample: with 17 equal-score rows the quicksort kernel
partitions (17 > the 16-element insertion-sort cutoff) and swaps
equal-key rows across the pivot, so the output rows — all of score
exactly 1/5 — are NOT in their original input order. -/
theorem C7_cex :
    ((rank_shops c17 [] []).map (·.score) = c17.map fun _ => some (1/5))
    ∧ (rank_shops c17 [] []).map (·.canonical_lat) ≠ c17.map (·.canonical_lat) := by
  constructor
  · with_unfolding_all decide
  · with_unfolding_all decide

end Tulsa
